import Mathlib

/-!
Verification of the task-list core of `src/app/page.tsx` (a client-side todo
application). The stateful core — the `todos` array, its mutating operations
(`addTodo`, `toggleTodo`, `deleteTodo`, clear-completed), its derived views
(`completedCount`, `totalCount`, `isOverdue`, `isDueToday`) and its
localStorage persistence (the load/save effects) — is embedded shallowly:

* JavaScript `Date` objects are modelled by `JSDate`: either a valid date,
  given as a local calendar-day index plus milliseconds within that day, or
  the Invalid Date produced by failed parses (`new Date(NaN)`).
* The textual encoding of dates (`Date.prototype.toISOString`, used by
  `JSON.stringify` via `toJSON`, and `new Date(string)` parsing) is modelled
  by `dateEncode`/`parseDate`: an injective, executable textual encoding of
  the instant together with its parser.  No claim depends on the concrete
  digit layout of ISO-8601, only on the encoding being parsed back to the
  same instant at millisecond precision, which this model shares with the
  real encoding.
* Wall-clock reads (`Date.now()`, `new Date()`) are passed in explicitly as
  a `now : Int` (milliseconds since epoch) or `today : JSDate` parameter.
* The localStorage slot under the `'todos'` key is modelled by
  `StoreContent`: absent, present but not valid JSON, or present and parsed
  to a `JsonValue` tree.  Thrown exceptions inside the guarded load path are
  modelled by `Option` (with `none` for a throw reaching the `catch`).
* The values living in the component state after a load are dynamically
  typed JavaScript values, not `Todo` records: they are modelled by
  `LoadedTodo`, a field list whose entries are either plain parsed-JSON
  values or `Date` objects.
-/

/-! ### Decimal digits: the executable numeric part of the date encoding -/

/-- The character for the decimal digit `d` (for `d < 10`). -/
def digitChar (d : Nat) : Char := Char.ofNat (48 + d)

/-- The decimal digit denoted by `c`, if `c` is one of `'0'`–`'9'`. -/
def charDigit (c : Char) : Option Nat :=
  if 48 ≤ c.toNat && c.toNat ≤ 57 then some (c.toNat - 48) else none

/-- Decimal digits of `n`, least significant first. -/
def digitsRev (n : Nat) : List Nat :=
  if n < 10 then [n] else (n % 10) :: digitsRev (n / 10)
termination_by n
decreasing_by omega

/-- The number denoted by a least-significant-first digit list. -/
def ofDigitsRev : List Nat → Nat
  | [] => 0
  | d :: ds => d + 10 * ofDigitsRev ds

/-- Parse a most-significant-first run of decimal digits, extending `acc`;
fails on any non-digit character. -/
def parseNatAux : List Char → Nat → Option Nat
  | [], acc => some acc
  | c :: cs, acc =>
    match charDigit c with
    | some d => parseNatAux cs (acc * 10 + d)
    | none => none

/-- Parse a non-empty all-digit character list as a natural number. -/
def parseNat (cs : List Char) : Option Nat :=
  if cs.isEmpty then none else parseNatAux cs 0

/-- The most-significant-first decimal digit characters of `n`. -/
def natChars (n : Nat) : List Char := ((digitsRev n).map digitChar).reverse

/-- Characters of a signed decimal number: an explicit sign character
followed by the digits of the absolute value. -/
def intChars (i : Int) : List Char :=
  if i < 0 then 'N' :: natChars (-i).toNat else 'P' :: natChars i.toNat

/-- Parse the output format of `intChars`. -/
def parseIntChars (cs : List Char) : Option Int :=
  match cs with
  | 'N' :: rest => (parseNat rest).map (fun n => -(n : Int))
  | 'P' :: rest => (parseNat rest).map (fun n => (n : Int))
  | _ => none

/-- Split a character list at the first `'T'`, failing when there is none. -/
def splitAtT : List Char → Option (List Char × List Char)
  | [] => none
  | c :: rest =>
    if c = 'T' then some ([], rest)
    else (splitAtT rest).map (fun p => (c :: p.1, p.2))

/-! ### JavaScript dates -/

/-- A JavaScript `Date` value: either a valid instant, given by its local
calendar-day index (days since epoch, possibly negative) and the
milliseconds elapsed within that day, or the Invalid Date that results from
a failed parse (a `Date` holding `NaN`). -/
inductive JSDate where
  | mk (day : Int) (msInDay : Nat)
  | invalid
deriving DecidableEq, Repr

/-- The serialized textual form of a valid date (day index and
milliseconds-in-day), the model of `Date.prototype.toISOString`:
an injective millisecond-precision encoding of the instant. -/
def dateEncode (day : Int) (msInDay : Nat) : String :=
  String.mk (intChars day ++ 'T' :: natChars msInDay)

/-- The model of `new Date(string)`: parse a serialized date, yielding the
Invalid Date when the text is not in the encoding's format. -/
def parseDate (s : String) : JSDate :=
  match splitAtT s.toList with
  | some (pre, post) =>
    match parseIntChars pre, parseNat post with
    | some day, some ms => JSDate.mk day ms
    | _, _ => JSDate.invalid
  | none => JSDate.invalid

/-- The model of `new Date(n)` for a millisecond timestamp `n` (also used
for `new Date()` at current time `n`). -/
def msToDate (n : Int) : JSDate :=
  JSDate.mk (Int.fdiv n 86400000) (Int.emod n 86400000).toNat

/-- The model of `d.setHours(0, 0, 0, 0)`: truncate a date to local
midnight, in place in the source.  On an Invalid Date it stays invalid. -/
def setHours0 : JSDate → JSDate
  | JSDate.mk day _ => JSDate.mk day 0
  | JSDate.invalid => JSDate.invalid

/-- The model of `<` on two `Date` objects: comparison of the underlying
millisecond values; any comparison against `NaN` (an Invalid Date) is
false. -/
def dateLt : JSDate → JSDate → Bool
  | JSDate.mk d1 m1, JSDate.mk d2 m2 =>
    decide (d1 * 86400000 + (m1 : Int) < d2 * 86400000 + (m2 : Int))
  | _, _ => false

/-- The model of `Date.prototype.toDateString`: a day-granularity rendering,
injective in the calendar day, and the literal text `"Invalid Date"` on an
Invalid Date. -/
def toDateString : JSDate → String
  | JSDate.mk day _ => String.mk ('D' :: intChars day)
  | JSDate.invalid => "Invalid Date"

/-! ### Strings -/

/-- Whitespace characters stripped by `String.prototype.trim` (the common
ASCII ones; the exotic Unicode space classes are not modelled). -/
def isWs (c : Char) : Bool :=
  c == ' ' || c == '\t' || c == '\n' || c == '\r'

/-- The model of `String.prototype.trim`: drop whitespace from both ends. -/
def jsTrim (s : String) : String :=
  String.mk (((s.toList.dropWhile isWs).reverse.dropWhile isWs).reverse)

/-! ### The task record and the TaskStore operations (`src/app/page.tsx`) -/

/-- The `Todo` interface of `page.tsx` (lines 5–11): `id: number`,
`title: string`, `completed: boolean`, `createdAt: Date`,
`dueDate?: Date`. -/
structure Todo where
  id : Int
  title : String
  completed : Bool
  createdAt : JSDate
  dueDate : Option JSDate
deriving DecidableEq, Repr

/-- `addTodo` (lines 41–54): when `inputValue.trim() !== ''`, prepend a new
todo with `id: Date.now()`, the trimmed title, `completed: false`,
`createdAt: new Date()` and, when the date input is non-empty (truthy),
`dueDate: new Date(selectedDate)`; otherwise do nothing.  The wall clock is
passed in as `now` (milliseconds).  The source also clears the two
controlled inputs (`setInputValue('')`, `setSelectedDate('')`), component
state outside the collection. -/
def addTodo (now : Int) (inputValue selectedDate : String) (todos : List Todo) : List Todo :=
  if jsTrim inputValue ≠ "" then
    { id := now
      title := jsTrim inputValue
      completed := false
      createdAt := msToDate now
      dueDate := if selectedDate ≠ "" then some (parseDate selectedDate) else none } :: todos
  else todos

/-- `toggleTodo` (lines 56–60): map over the collection, flipping
`completed` on every todo whose `id` matches. -/
def toggleTodo (i : Int) (todos : List Todo) : List Todo :=
  todos.map fun todo =>
    if todo.id = i then { todo with completed := !todo.completed } else todo

/-- `deleteTodo` (lines 62–64): keep every todo whose `id` differs. -/
def deleteTodo (i : Int) (todos : List Todo) : List Todo :=
  todos.filter fun todo => decide (todo.id ≠ i)

/-- The clear-completed button handler (line 233):
`todos.filter(todo => !todo.completed)`. -/
def clearCompleted (todos : List Todo) : List Todo :=
  todos.filter fun todo => !todo.completed

/-- `completedCount` (line 71): number of completed todos. -/
def completedCount (todos : List Todo) : Nat :=
  (todos.filter fun todo => todo.completed).length

/-- `totalCount` (line 72): collection size. -/
def totalCount (todos : List Todo) : Nat := todos.length

/-- `isOverdue` (lines 83–89).  The source truncates **both** `today` and
the task's `dueDate` to local midnight with `setHours(0, 0, 0, 0)` — which
mutates the `Date` object stored in the task — and then compares.  The
mutation is modelled by returning the due date as it is left after the
call, alongside the boolean result. -/
def isOverdue (today : JSDate) : Option JSDate → Bool × Option JSDate
  | none => (false, none)
  | some d => (dateLt (setHours0 d) (setHours0 today), some (setHours0 d))

/-- `isDueToday` (lines 91–95): `dueDate.toDateString() ===
today.toDateString()`, false when there is no due date. -/
def isDueToday (today : JSDate) : Option JSDate → Bool
  | none => false
  | some d => decide (toDateString d = toDateString today)

/-- A sequence of `addTodo` calls, each with its own wall-clock reading and
input-field contents, applied first element first. -/
def runAdds : List (Int × String × String) → List Todo → List Todo
  | [], todos => todos
  | op :: ops, todos => runAdds ops (addTodo op.1 op.2.1 op.2.2 todos)

/-! ### Persistence: the store, serialization and the load path -/

/-- A parsed JSON tree, the possible results of `JSON.parse`. -/
inductive JsonValue where
  | null
  | bool (b : Bool)
  | num (n : Int)
  | str (s : String)
  | arr (elems : List JsonValue)
  | obj (fields : List (String × JsonValue))

/-- The contents of the localStorage slot under the `'todos'` key: absent,
present but not parseable as JSON (so `JSON.parse` throws), or present and
parsing to a JSON tree. -/
inductive StoreContent where
  | absent
  | invalidJson (raw : String)
  | json (v : JsonValue)

/-- How `JSON.stringify` serializes a `Date` field: a valid date becomes
its textual encoding (`toJSON` calls `toISOString`), an Invalid Date
becomes `null`. -/
def dateToJsonValue : JSDate → JsonValue
  | JSDate.mk day ms => JsonValue.str (dateEncode day ms)
  | JSDate.invalid => JsonValue.null

/-- How `JSON.stringify` serializes one todo record: its fields in
declaration order, dates as text, and the `dueDate` key omitted entirely
when the value is `undefined`. -/
def todoToJson (t : Todo) : JsonValue :=
  JsonValue.obj
    ([("id", JsonValue.num t.id),
      ("title", JsonValue.str t.title),
      ("completed", JsonValue.bool t.completed),
      ("createdAt", dateToJsonValue t.createdAt)] ++
     (match t.dueDate with
      | some d => [("dueDate", dateToJsonValue d)]
      | none => []))

/-- The save effect (lines 37–39):
`localStorage.setItem('todos', JSON.stringify(todos))` overwrites the slot
with the serialized array. -/
def save (todos : List Todo) : StoreContent :=
  StoreContent.json (JsonValue.arr (todos.map todoToJson))

/-- A field value of a todo object rebuilt by the load effect: either a
plain parsed-JSON value copied verbatim by the object spread, or a `Date`
object created by `new Date(...)`. -/
inductive LoadedField where
  | val (v : JsonValue)
  | date (d : JSDate)

/-- A todo object as rebuilt by the load effect: its named fields in
insertion order. -/
abbrev LoadedTodo := List (String × LoadedField)

/-- JavaScript property read `fields.k` on a parsed JSON object. -/
def lookupField (fields : List (String × JsonValue)) (k : String) : Option JsonValue :=
  (fields.find? fun p => p.1 == k).map fun p => p.2

/-- JavaScript object-literal semantics of `({ ...todo, k: v })`: when `k`
was already present its value is overwritten in place, otherwise `k` is
appended as the last key. -/
def setField (fields : LoadedTodo) (k : String) (v : LoadedField) : LoadedTodo :=
  if fields.any fun p => p.1 == k then
    fields.map fun p => if p.1 == k then (k, v) else p
  else fields ++ [(k, v)]

/-- The model of `new Date(x)` on the raw JSON value found at `createdAt`
(with `none` for an absent key, read as `undefined`): strings are parsed,
numbers (and via coercion `null` and booleans) are taken as millisecond
timestamps, everything else yields the Invalid Date. -/
def newDate : Option JsonValue → JSDate
  | none => JSDate.invalid
  | some (JsonValue.str s) => parseDate s
  | some (JsonValue.num n) => msToDate n
  | some (JsonValue.bool b) => msToDate (if b then 1 else 0)
  | some JsonValue.null => msToDate 0
  | some (JsonValue.arr _) => JSDate.invalid
  | some (JsonValue.obj _) => JSDate.invalid

/-- One step of the load mapping (lines 25–28):
`({ ...todo, createdAt: new Date(todo.createdAt) })` on one parsed array
element.  Object spread of a primitive yields its enumerable own
properties (none for numbers and booleans, index keys for strings and
arrays); reading `.createdAt` off `null` throws, modelled by `none`. -/
def loadOne : JsonValue → Option LoadedTodo
  | JsonValue.obj fields =>
    some (setField (fields.map fun p => (p.1, LoadedField.val p.2)) "createdAt"
      (LoadedField.date (newDate (lookupField fields "createdAt"))))
  | JsonValue.null => none
  | JsonValue.num _ => some [("createdAt", LoadedField.date (newDate none))]
  | JsonValue.bool _ => some [("createdAt", LoadedField.date (newDate none))]
  | JsonValue.str s =>
    some ((s.toList.enum.map fun p => (toString p.1, LoadedField.val (JsonValue.str (String.mk [p.2])))) ++
      [("createdAt", LoadedField.date (newDate none))])
  | JsonValue.arr xs =>
    some ((xs.enum.map fun p => (toString p.1, LoadedField.val p.2)) ++
      [("createdAt", LoadedField.date (newDate none))])

/-- `parsedTodos.map(...)` with exception propagation: a throw on any
element aborts the whole mapping (the exception reaches the `catch`). -/
def loadMap : List JsonValue → Option (List LoadedTodo)
  | [] => some []
  | v :: vs =>
    match loadOne v with
    | some t => (loadMap vs).map fun ts => t :: ts
    | none => none

/-- The load effect (lines 19–34): an absent slot leaves the initial `[]`
state; any exception inside the `try` (`JSON.parse` throwing, `.map` called
on a non-array, an element throwing) is caught and likewise leaves `[]`;
otherwise the rebuilt array becomes the state. -/
def load (stored : StoreContent) : List LoadedTodo :=
  match stored with
  | StoreContent.absent => []
  | StoreContent.invalidJson _ => []
  | StoreContent.json (JsonValue.arr items) =>
    (match loadMap items with
     | some ts => ts
     | none => [])
  | StoreContent.json _ => []

/-- The loaded form that `load` after `save` **actually** produces for a
well-formed todo: `createdAt` rebuilt as a `Date`, every other field —
including `dueDate` — kept as the plain parsed-JSON value of its serialized
form. -/
def todoToLoadedJs (t : Todo) : LoadedTodo :=
  [("id", LoadedField.val (JsonValue.num t.id)),
   ("title", LoadedField.val (JsonValue.str t.title)),
   ("completed", LoadedField.val (JsonValue.bool t.completed)),
   ("createdAt", LoadedField.date t.createdAt)] ++
  (match t.dueDate with
   | some d => [("dueDate", LoadedField.val (dateToJsonValue d))]
   | none => [])

/-- Follows the spec's words for the round-trip claim: every date field —
`createdAt` **and**, when present, `dueDate` — reconstructed as a
date-typed value denoting the serialized instant, all other fields
reconstructed equal. -/
def todoToLoadedSpec (t : Todo) : LoadedTodo :=
  [("id", LoadedField.val (JsonValue.num t.id)),
   ("title", LoadedField.val (JsonValue.str t.title)),
   ("completed", LoadedField.val (JsonValue.bool t.completed)),
   ("createdAt", LoadedField.date t.createdAt)] ++
  (match t.dueDate with
   | some d => [("dueDate", LoadedField.date d)]
   | none => [])

/-- Whether the field `k` of a rebuilt todo object holds a date-typed
value. -/
def fieldIsDateTyped (t : LoadedTodo) (k : String) : Bool :=
  match (t.find? fun p => p.1 == k).map fun p => p.2 with
  | some (LoadedField.date _) => true
  | _ => false

/-! ### Round-trip facts about the date encoding -/

theorem charDigit_digitChar : ∀ d < 10, charDigit (digitChar d) = some d := by decide

theorem ofDigitsRev_digitsRev (n : Nat) : ofDigitsRev (digitsRev n) = n := by
  induction n using Nat.strong_induction_on with
  | _ n ih =>
    rw [digitsRev]
    split
    · simp [ofDigitsRev]
    · rw [ofDigitsRev, ih (n / 10) (by omega)]
      omega

theorem digitsRev_lt (n : Nat) : ∀ d ∈ digitsRev n, d < 10 := by
  induction n using Nat.strong_induction_on with
  | _ n ih =>
    rw [digitsRev]
    split
    · simp
      omega
    · intro d hd
      rcases List.mem_cons.1 hd with h | h
      · omega
      · exact ih (n / 10) (by omega) d h

theorem digitsRev_ne_nil (n : Nat) : digitsRev n ≠ [] := by
  rw [digitsRev]
  split <;> simp

theorem parseNatAux_append (xs ys : List Char) (acc : Nat) :
    parseNatAux (xs ++ ys) acc = (parseNatAux xs acc).bind (fun a => parseNatAux ys a) := by
  induction xs generalizing acc with
  | nil => simp [parseNatAux]
  | cons c cs ih =>
    simp only [List.cons_append, parseNatAux]
    cases charDigit c with
    | some d => simp [ih]
    | none => simp

theorem parseNatAux_digits (ds : List Nat) (acc : Nat) (h : ∀ d ∈ ds, d < 10) :
    parseNatAux ((ds.map digitChar).reverse) acc = some (acc * 10 ^ ds.length + ofDigitsRev ds) := by
  induction ds generalizing acc with
  | nil => simp [parseNatAux, ofDigitsRev]
  | cons d ds ih =>
    have hd : d < 10 := h d (List.mem_cons_self d ds)
    simp only [List.map_cons, List.reverse_cons]
    rw [parseNatAux_append, ih acc (fun e he => h e (List.mem_cons_of_mem d he)),
      Option.some_bind]
    simp only [parseNatAux, charDigit_digitChar d hd]
    congr 1
    simp only [List.length_cons, ofDigitsRev]
    ring

theorem parseNat_natChars (n : Nat) : parseNat (natChars n) = some n := by
  have hne : natChars n ≠ [] := by
    simp [natChars, digitsRev_ne_nil n]
  rw [parseNat, if_neg (by simpa using hne), natChars,
    parseNatAux_digits (digitsRev n) 0 (digitsRev_lt n)]
  simp [ofDigitsRev_digitsRev]

theorem parseIntChars_intChars (i : Int) : parseIntChars (intChars i) = some i := by
  by_cases h : i < 0
  · rw [intChars, if_pos h]
    show (parseNat (natChars (-i).toNat)).map (fun n => -(n : Int)) = some i
    rw [parseNat_natChars]
    show some (-(((-i).toNat : Nat) : Int)) = some i
    congr 1
    omega
  · rw [intChars, if_neg h]
    show (parseNat (natChars i.toNat)).map (fun n => (n : Int)) = some i
    rw [parseNat_natChars]
    show some ((i.toNat : Int)) = some i
    congr 1
    omega

theorem intChars_inj {a b : Int} (h : intChars a = intChars b) : a = b := by
  have ha := parseIntChars_intChars a
  rw [h, parseIntChars_intChars b] at ha
  exact (Option.some.inj ha).symm

theorem mem_natChars (n : Nat) (c : Char) (h : c ∈ natChars n) :
    (charDigit c).isSome = true := by
  rw [natChars, List.mem_reverse] at h
  rcases List.mem_map.1 h with ⟨d, hd, rfl⟩
  rw [charDigit_digitChar d (digitsRev_lt n d hd)]
  rfl

theorem tNotMem_intChars (i : Int) : 'T' ∉ intChars i := by
  rw [intChars]
  split <;>
  · intro h
    rcases List.mem_cons.1 h with h | h
    · exact absurd h (by decide)
    · exact absurd (mem_natChars _ _ h) (by decide)

theorem splitAtT_append (xs ys : List Char) (h : 'T' ∉ xs) :
    splitAtT (xs ++ 'T' :: ys) = some (xs, ys) := by
  induction xs with
  | nil => simp [splitAtT]
  | cons c cs ih =>
    have hc : c ≠ 'T' := fun hh => h (hh ▸ List.mem_cons_self c cs)
    have heq : splitAtT ((c :: cs) ++ 'T' :: ys)
        = (splitAtT (cs ++ 'T' :: ys)).map (fun p => (c :: p.1, p.2)) := by
      show (if c = 'T' then some ([], cs ++ 'T' :: ys)
        else (splitAtT (cs ++ 'T' :: ys)).map (fun p => (c :: p.1, p.2)))
        = (splitAtT (cs ++ 'T' :: ys)).map (fun p => (c :: p.1, p.2))
      rw [if_neg hc]
    rw [heq, ih (fun hm => h (List.mem_cons_of_mem c hm))]
    rfl

theorem parseDate_dateEncode (day : Int) (ms : Nat) :
    parseDate (dateEncode day ms) = JSDate.mk day ms := by
  rw [parseDate, dateEncode,
    show String.toList (String.mk (intChars day ++ 'T' :: natChars ms)) =
      intChars day ++ 'T' :: natChars ms from rfl,
    splitAtT_append _ _ (tNotMem_intChars day)]
  simp only [parseIntChars_intChars, parseNat_natChars]

/-! ### Helper lemmas about the operations -/

theorem toggleTodo_absent (x : Int) (todos : List Todo) (h : ∀ t ∈ todos, t.id ≠ x) :
    toggleTodo x todos = todos := by
  have heq : todos.map (fun todo =>
      if todo.id = x then { todo with completed := !todo.completed } else todo)
      = todos.map (fun todo => todo) :=
    List.map_congr_left (fun a ha => if_neg (h a ha))
  rw [toggleTodo, heq]
  simp

theorem deleteTodo_absent (x : Int) (todos : List Todo) (h : ∀ t ∈ todos, t.id ≠ x) :
    deleteTodo x todos = todos := by
  rw [deleteTodo]
  rw [List.filter_eq_self.2]
  intro a ha
  simpa using h a ha

theorem runAdds_ids_nodup_aux (ops : List (Int × String × String)) :
    ∀ init : List Todo,
      ((ops.map fun op => op.1) ++ init.map Todo.id).Nodup →
      ((runAdds ops init).map Todo.id).Nodup := by
  induction ops with
  | nil =>
    intro init h
    simpa using h
  | cons op ops ih =>
    intro init h
    rw [runAdds]
    by_cases ht : jsTrim op.2.1 ≠ ""
    · have haddeq : addTodo op.1 op.2.1 op.2.2 init =
          { id := op.1
            title := jsTrim op.2.1
            completed := false
            createdAt := msToDate op.1
            dueDate := if op.2.2 ≠ "" then some (parseDate op.2.2) else none } :: init := by
        rw [addTodo, if_pos ht]
      apply ih
      rw [haddeq]
      simp only [List.map_cons]
      refine List.Perm.nodup List.perm_middle.symm ?_
      simpa using h
    · have haddeq : addTodo op.1 op.2.1 op.2.2 init = init := by
        rw [addTodo, if_neg ht]
      apply ih
      rw [haddeq]
      have h' := h
      simp only [List.map_cons, List.cons_append] at h'
      exact List.Nodup.of_cons h'

/-! ### The claims -/

/-- C2 (amended): across any sequence of `addTodo` calls starting from the
empty collection, the ids of all tasks created are pairwise distinct
**provided** the `Date.now()` readings of the calls are pairwise distinct.
(As stated the claim fails: the id is the wall-clock millisecond, so two
adds in the same millisecond collide — see the counterexample.) -/
theorem claim_c2_ids_nodup (ops : List (Int × String × String))
    (h : (ops.map fun op => op.1).Nodup) :
    ((runAdds ops []).map Todo.id).Nodup :=
  runAdds_ids_nodup_aux ops [] (by simpa using h)

theorem claim_c2_witness : ((runAdds [(1, "A", ""), (2, "B", "")] []).map Todo.id).Nodup :=
  claim_c2_ids_nodup [(1, "A", ""), (2, "B", "")] (by decide)

/-- C2 counterexample: two adds at the same `Date.now()` reading (same
millisecond) create two tasks with the same id, so the ids are not
pairwise distinct. -/
theorem claim_c2_counterexample :
    ¬ ((runAdds [(5, "A", ""), (5, "B", "")] []).map Todo.id).Nodup := by
  decide

/-- C3 (code bug): `isOverdue` mutates the task's `dueDate` in place —
`dueDate.setHours(0, 0, 0, 0)` truncates the stored `Date` object to local
midnight — so a field other than `completed` changes after creation,
contradicting the immutability the spec states.  At a due date with a
nonzero time-of-day (here 3 600 000 ms = 1:00), one `isOverdue` call leaves
the due date changed. -/
theorem claim_c3_isOverdue_mutates :
    (isOverdue (JSDate.mk 10 0) (some (JSDate.mk 5 3600000))).2 = some (JSDate.mk 5 0)
    ∧ JSDate.mk 5 0 ≠ JSDate.mk 5 3600000 := by
  decide

/-- C5: for a task with a due date, `isOverdue` and `isDueToday` are never
both true, whatever today's date is: overdue compares the calendar days
strictly, due-today compares them for equality. -/
theorem claim_c5_overdue_dueToday_exclusive (today d : JSDate) :
    ((isOverdue today (some d)).1 && isDueToday today (some d)) = false := by
  cases d with
  | invalid => cases today <;> rfl
  | mk dd dm =>
    cases today with
    | invalid => rfl
    | mk td tm =>
      cases hov : (isOverdue (JSDate.mk td tm) (some (JSDate.mk dd dm))).1 with
      | false => rw [Bool.false_and]
      | true =>
        have hlt : dd < td := by
          have hc := of_decide_eq_true hov
          omega
        rw [Bool.true_and]
        apply decide_eq_false
        intro hs
        have hl : 'D' :: intChars dd = 'D' :: intChars td := congrArg String.data hs
        have hl2 : intChars dd = intChars td := by injection hl
        have : dd = td := intChars_inj hl2
        omega

/-- C6: a title that is empty or whitespace-only after trimming makes
`addTodo` a proper no-op: the collection is unchanged (and nothing in the
model signals an error). -/
theorem claim_c6_blank_title_noop (now : Int) (inputValue selectedDate : String)
    (todos : List Todo) (h : jsTrim inputValue = "") :
    addTodo now inputValue selectedDate todos = todos := by
  rw [addTodo, if_neg (by simp [h])]

theorem claim_c6_witness : jsTrim "  " = "" ∧ addTodo 7 "  " "" [] = [] :=
  ⟨by decide, claim_c6_blank_title_noop 7 "  " "" [] (by decide)⟩

/-- C7: toggling or deleting an id that no task carries leaves the
collection unchanged; absence is not an error. -/
theorem claim_c7_absent_id_noop (x : Int) (todos : List Todo)
    (h : ∀ t ∈ todos, t.id ≠ x) :
    toggleTodo x todos = todos ∧ deleteTodo x todos = todos :=
  ⟨toggleTodo_absent x todos h, deleteTodo_absent x todos h⟩

theorem claim_c7_witness :
    toggleTodo 99 [{ id := 1, title := "A", completed := false, createdAt := JSDate.mk 0 0, dueDate := none }] =
      [{ id := 1, title := "A", completed := false, createdAt := JSDate.mk 0 0, dueDate := none }]
    ∧ deleteTodo 99 [{ id := 1, title := "A", completed := false, createdAt := JSDate.mk 0 0, dueDate := none }] =
      [{ id := 1, title := "A", completed := false, createdAt := JSDate.mk 0 0, dueDate := none }] :=
  claim_c7_absent_id_noop 99 _ (by decide)

/-- C8: a successful `addTodo` prepends the newly constructed task, so the
collection stays newest-first. -/
theorem claim_c8_prepend (now : Int) (inputValue selectedDate : String)
    (todos : List Todo) (h : jsTrim inputValue ≠ "") :
    addTodo now inputValue selectedDate todos =
      { id := now
        title := jsTrim inputValue
        completed := false
        createdAt := msToDate now
        dueDate := if selectedDate ≠ "" then some (parseDate selectedDate) else none } :: todos := by
  rw [addTodo, if_pos h]

theorem claim_c8_witness :
    (addTodo 2 "B" "" (addTodo 1 "A" "" [])).map Todo.title = ["B", "A"] := by
  rw [claim_c8_prepend 1 "A" "" [] (by decide), claim_c8_prepend 2 "B" "" _ (by decide)]
  decide

/-- C9: the clear-completed handler removes exactly the completed tasks and
keeps every other task unchanged (it is a sublist of the original); in the
add-A, add-B, toggle-A scenario only A is removed and B survives
uncompleted. -/
theorem claim_c9_clearCompleted (todos : List Todo) :
    (∀ t, t ∈ clearCompleted todos ↔ t ∈ todos ∧ t.completed = false)
    ∧ (clearCompleted todos).Sublist todos
    ∧ clearCompleted (toggleTodo 1 (addTodo 2 "B" "" (addTodo 1 "A" "" []))) =
        [{ id := 2, title := "B", completed := false, createdAt := msToDate 2,
           dueDate := none }] := by
  refine ⟨fun t => ?_, List.filter_sublist _, by decide⟩
  simp [clearCompleted, List.mem_filter]

/-- C10: `deleteTodo` removes **every** task whose id equals the given one
(the filter drops all matches), and keeps the rest unchanged; with two
tasks sharing id 5, one delete removes both. -/
theorem claim_c10_delete_removes_all (x : Int) (todos : List Todo) :
    (∀ t, t ∈ deleteTodo x todos ↔ t ∈ todos ∧ t.id ≠ x)
    ∧ (deleteTodo x todos).Sublist todos
    ∧ deleteTodo 5
        [{ id := 5, title := "A", completed := false, createdAt := msToDate 0, dueDate := none },
         { id := 5, title := "B", completed := false, createdAt := msToDate 0, dueDate := none },
         { id := 7, title := "C", completed := false, createdAt := msToDate 0, dueDate := none }] =
        [{ id := 7, title := "C", completed := false, createdAt := msToDate 0, dueDate := none }] := by
  refine ⟨fun t => ?_, List.filter_sublist _, by decide⟩
  simp [deleteTodo, List.mem_filter]

theorem loadOne_todoToJson (t : Todo) (h : t.createdAt ≠ JSDate.invalid) :
    loadOne (todoToJson t) = some (todoToLoadedJs t) := by
  cases hca : t.createdAt with
  | invalid => exact absurd hca h
  | mk day ms =>
    cases hdd : t.dueDate with
    | none =>
      simp [todoToJson, loadOne, lookupField, setField, newDate, todoToLoadedJs,
        hca, hdd, dateToJsonValue, parseDate_dateEncode]
    | some d =>
      simp [todoToJson, loadOne, lookupField, setField, newDate, todoToLoadedJs,
        hca, hdd, dateToJsonValue, parseDate_dateEncode]

theorem loadMap_todoToJson (C : List Todo) (h : ∀ t ∈ C, t.createdAt ≠ JSDate.invalid) :
    loadMap (C.map todoToJson) = some (C.map todoToLoadedJs) := by
  induction C with
  | nil => rfl
  | cons t ts ih =>
    have h1 : loadMap ((t :: ts).map todoToJson)
        = match loadOne (todoToJson t) with
          | some u => (loadMap (ts.map todoToJson)).map fun us => u :: us
          | none => none := rfl
    rw [h1, loadOne_todoToJson t (h t (List.mem_cons_self t ts))]
    rw [show (match some (todoToLoadedJs t) with
          | some u => (loadMap (ts.map todoToJson)).map fun us => u :: us
          | none => none)
        = (loadMap (ts.map todoToJson)).map (fun us => todoToLoadedJs t :: us) from rfl]
    rw [ih (fun u hu => h u (List.mem_cons_of_mem t hu))]
    rfl

/-- C1 (amended): loading after saving `C` (for tasks whose `createdAt` is
a valid date, as every task the app creates is) reconstructs a collection
whose `createdAt` is a date-typed value denoting the serialized instant and
whose every other field is reconstructed equal — except that `dueDate`,
when present, is **left as its serialized textual (string) form** and is
not rebuilt as a date-typed value.  (As stated the claim fails on the
`dueDate` field — see the counterexample.) -/
theorem claim_c1_roundtrip (C : List Todo) (h : ∀ t ∈ C, t.createdAt ≠ JSDate.invalid) :
    load (save C) = C.map todoToLoadedJs := by
  rw [save]
  have h1 : load (StoreContent.json (JsonValue.arr (C.map todoToJson)))
      = match loadMap (C.map todoToJson) with
        | some ts => ts
        | none => [] := rfl
  rw [h1, loadMap_todoToJson C h]

theorem claim_c1_witness :
    load (save [{ id := 1, title := "A", completed := false, createdAt := JSDate.mk 0 0, dueDate := some (JSDate.mk 3 0) }]) =
      List.map todoToLoadedJs [{ id := 1, title := "A", completed := false, createdAt := JSDate.mk 0 0, dueDate := some (JSDate.mk 3 0) }] :=
  claim_c1_roundtrip _ (by decide)

/-- C1 counterexample: after a save/load round trip of a task with a due
date, the reloaded `dueDate` field holds the serialized string, not a
date-typed value, so the reloaded collection differs from the one the
claim describes (every date field date-typed). -/
theorem claim_c1_counterexample :
    load (save [{ id := 1, title := "A", completed := false, createdAt := JSDate.mk 0 0, dueDate := some (JSDate.mk 3 0) }]) ≠
      List.map todoToLoadedSpec [{ id := 1, title := "A", completed := false, createdAt := JSDate.mk 0 0, dueDate := some (JSDate.mk 3 0) }] := by
  intro h
  have h2 : ((load (save [{ id := 1, title := "A", completed := false, createdAt := JSDate.mk 0 0, dueDate := some (JSDate.mk 3 0) }])).all
        fun t => fieldIsDateTyped t "dueDate")
      = ((List.map todoToLoadedSpec [{ id := 1, title := "A", completed := false, createdAt := JSDate.mk 0 0, dueDate := some (JSDate.mk 3 0) }]).all
        fun t => fieldIsDateTyped t "dueDate") := by
    rw [h]
  revert h2
  decide

/-- C4 (amended): when the stored bytes are absent, fail to parse as JSON,
parse to a non-array value (so `.map` throws inside the `try`), or contain
an element whose mapping throws, `load` does not crash and yields the empty
collection.  (The original claim also covered content that merely fails
the task-schema expectations; that part is false — a parseable array is
loaded as-is with no schema validation — see the counterexample.) -/
theorem claim_c4_load_errors (s : String) (v : JsonValue)
    (h : ∀ xs, v ≠ JsonValue.arr xs) :
    load StoreContent.absent = []
    ∧ load (StoreContent.invalidJson s) = []
    ∧ load (StoreContent.json v) = []
    ∧ load (StoreContent.json (JsonValue.arr [JsonValue.null])) = [] := by
  refine ⟨rfl, rfl, ?_, rfl⟩
  cases v with
  | arr xs => exact absurd rfl (h xs)
  | null => rfl
  | bool b => rfl
  | num n => rfl
  | str s2 => rfl
  | obj fs => rfl

theorem claim_c4_witness :
    load StoreContent.absent = []
    ∧ load (StoreContent.invalidJson "oops") = []
    ∧ load (StoreContent.json (JsonValue.num 3)) = []
    ∧ load (StoreContent.json (JsonValue.arr [JsonValue.null])) = [] :=
  claim_c4_load_errors "oops" (JsonValue.num 3) (fun _ h => JsonValue.noConfusion h)

/-- C4 counterexample: stored content that parses to an array whose element
fails every schema expectation for a task (an object with none of the task
fields) is **not** replaced by the empty collection: `load` happily
produces a one-element collection of a malformed record. -/
theorem claim_c4_counterexample :
    load (StoreContent.json (JsonValue.arr [JsonValue.obj [("foo", JsonValue.num 1)]])) ≠ [] := by
  intro h
  have h2 : (load (StoreContent.json (JsonValue.arr [JsonValue.obj [("foo", JsonValue.num 1)]]))).length = 0 := by
    rw [h]
    rfl
  revert h2
  decide
